import Mathlib

/-!
Verification of the clawban kanban-workflow core: the stage normalizer
(`Stage.from_any` / `_slug` in `src/clawban/models.py`), the snapshot diff
engine (`diff_work_items` in `src/clawban/diff.py`) and the incremental
poll/reconcile engine (`GitHubAdapter.poll_events_since` in
`src/clawban/github_adapter.py`), shallowly embedded over lists and
association lists.
-/

namespace Clawban

/-! ## String helpers (embedding Python `str` operations) -/

/-- Python `str.strip()`: drop whitespace from both ends (on the char list). -/
def trimChars (l : List Char) : List Char :=
  ((l.dropWhile Char.isWhitespace).reverse.dropWhile Char.isWhitespace).reverse

/-- Python `str.strip()` on `String`. -/
def strTrim (s : String) : String := ⟨trimChars s.data⟩

/-- Python `str.lower()`: char-wise lower-casing. -/
def strLower (s : String) : String := ⟨s.data.map Char.toLower⟩

/-- Python `str.startswith(p)`. -/
def strStartsWith (p s : String) : Bool := p.data.isPrefixOf s.data

/-- One fuel-indexed pass of Python `str.replace(pat, "")`: remove every
non-overlapping occurrence of `pat`, scanning left to right.  The fuel is
an upper bound on the number of characters consumed; callers pass the
length of the subject string. -/
def removeAllAux (pat : List Char) : Nat → List Char → List Char
  | 0, l => l
  | _ + 1, [] => []
  | fuel + 1, c :: cs =>
    if pat.isPrefixOf (c :: cs) && !pat.isEmpty then
      removeAllAux pat fuel ((c :: cs).drop pat.length)
    else
      c :: removeAllAux pat fuel cs

/-- Python `s.replace(pat, "")` for a non-empty pattern. -/
def removeAllStr (pat s : String) : String :=
  ⟨removeAllAux pat.data s.data.length s.data⟩

/-- Python `s.replace(a, b)` for single characters `a`, `b`: a char-wise map. -/
def replaceChar (a b : Char) (l : List Char) : List Char :=
  l.map (fun c => if c = a then b else c)

/-! ## Stage (`src/clawban/models.py`) -/

/-- Embeds `_CANONICAL_STAGES` from `models.py`: the seven canonical keys. -/
def canonicalStages : List String :=
  ["stage:backlog", "stage:queued", "stage:needs-clarification",
   "stage:ready-to-implement", "stage:in-progress", "stage:in-review",
   "stage:blocked"]

/-- Embeds `_slug` from `models.py`:
`s.strip().lower().replace("stage:", "").replace("stage/", "").replace("_", "-").replace(" ", "-")`. -/
def slug (s : String) : String :=
  ⟨replaceChar ' ' '-'
    (replaceChar '_' '-'
      (removeAllStr "stage/" (removeAllStr "stage:" (strLower (strTrim s)))).data)⟩

/-- Embeds the `Stage` dataclass: an immutable wrapper of a key string. -/
structure Stage where
  key : String
deriving DecidableEq, Repr

/-- The error raised by `Stage.from_any` (spec name: `UnrecognizedStage`;
the source raises `ValueError(f"Unknown stage: {value!r}")`). -/
inductive StageError where
  | unrecognized (value : String)
deriving DecidableEq, Repr

/-- Embeds `Stage.from_any` from `models.py`: compute `normalized = _slug(value)`;
if `value.strip().lower()` starts with `"stage:"` use it directly as the key,
otherwise use `"stage:" + normalized`; accept exactly the canonical keys. -/
def Stage.fromAny (value : String) : Except StageError Stage :=
  let normalized := slug value
  let t := strLower (strTrim value)
  let key := if strStartsWith "stage:" t then t else "stage:" ++ normalized
  if key ∈ canonicalStages then Except.ok ⟨key⟩
  else Except.error (StageError.unrecognized value)

/-- Modelled from the spec: "otherwise strip any namespace-like prefix
variants (`stage:`, `stage/`)", read as removing such a variant only when it
occurs leading the (trimmed, lower-cased) input. -/
def stripLeadingVariant (t : String) : String :=
  if strStartsWith "stage:" t then ⟨t.data.drop 6⟩
  else if strStartsWith "stage/" t then ⟨t.data.drop 6⟩
  else t

/-- Modelled from the spec: the normalization algorithm of §4.1 with the
namespace variants stripped only as a leading prefix of the trimmed,
lower-cased input, then underscores and spaces replaced by hyphens, then the
canonical namespace re-prefixed; exactly the canonical keys are accepted. -/
def Stage.fromAnySpec (value : String) : Except StageError Stage :=
  let t := strLower (strTrim value)
  let key :=
    if strStartsWith "stage:" t then t
    else "stage:" ++
      String.mk ((stripLeadingVariant t).data.map
        (fun c => if c = '_' ∨ c = ' ' then '-' else c))
  if key ∈ canonicalStages then Except.ok ⟨key⟩
  else Except.error (StageError.unrecognized value)

/-- The spec algorithm of §4.1 amended at its stripping step: the substrings
`stage:` and `stage/` are removed wherever they occur in the trimmed,
lower-cased input (left to right, non-overlapping), not only as a leading
prefix; the rest of the algorithm is unchanged. -/
def Stage.fromAnyAmended (value : String) : Except StageError Stage :=
  let t := strLower (strTrim value)
  let key :=
    if strStartsWith "stage:" t then t
    else "stage:" ++
      String.mk ((removeAllStr "stage/" (removeAllStr "stage:" t)).data.map
        (fun c => if c = '_' ∨ c = ' ' then '-' else c))
  if key ∈ canonicalStages then Except.ok ⟨key⟩
  else Except.error (StageError.unrecognized value)

theorem replaceChar_replaceChar (l : List Char) :
    replaceChar ' ' '-' (replaceChar '_' '-' l)
      = l.map (fun c => if c = '_' ∨ c = ' ' then '-' else c) := by
  induction l with
  | nil => rfl
  | cons c cs ih =>
    simp only [replaceChar, List.map_cons, List.map_map] at *
    refine congrArg₂ List.cons ?_ ih
    by_cases h1 : c = '_'
    · simp [h1]
    · by_cases h2 : c = ' ' <;> simp [h1, h2]

/-! ## Stage claims -/

/-- C7: `Stage.from_any` normalizes `"BACKLOG"`, `"stage:backlog"` and
`"stage/backlog"` to the key `stage:backlog`, normalizes `"in progress"`,
`"in_progress"` and `"IN-PROGRESS"` to the key `stage:in-progress`, and fails
for `"triage"` with the unrecognized-stage error carrying the offending
value, surfaced to the caller. -/
theorem stage_fromAny_examples :
    Stage.fromAny "BACKLOG" = Except.ok ⟨"stage:backlog"⟩ ∧
    Stage.fromAny "stage:backlog" = Except.ok ⟨"stage:backlog"⟩ ∧
    Stage.fromAny "stage/backlog" = Except.ok ⟨"stage:backlog"⟩ ∧
    Stage.fromAny "in progress" = Except.ok ⟨"stage:in-progress"⟩ ∧
    Stage.fromAny "in_progress" = Except.ok ⟨"stage:in-progress"⟩ ∧
    Stage.fromAny "IN-PROGRESS" = Except.ok ⟨"stage:in-progress"⟩ ∧
    Stage.fromAny "triage" = Except.error (StageError.unrecognized "triage") :=
  ⟨rfl, rfl, rfl, rfl, rfl, rfl, rfl⟩

/-- C4 (counterexample): on `"backstage:log"`, which does not begin with the
namespace prefix, the code accepts and returns `stage:backlog` (because the
slug helper removes `"stage:"` anywhere in the string), while the spec's
algorithm read as stripping the namespace variants only as a leading prefix
rejects the input — so `Stage.from_any` does not follow that reading of the
stated normalization algorithm. -/
theorem stage_fromAny_prefix_reading_fails :
    Stage.fromAny "backstage:log" = Except.ok ⟨"stage:backlog"⟩ ∧
    Stage.fromAnySpec "backstage:log"
      = Except.error (StageError.unrecognized "backstage:log") ∧
    Stage.fromAny "backstage:log" ≠ Stage.fromAnySpec "backstage:log" :=
  ⟨rfl, rfl, by
    intro h
    have h1 : Stage.fromAny "backstage:log" = Except.ok ⟨"stage:backlog"⟩ := rfl
    have h2 : Stage.fromAnySpec "backstage:log"
        = Except.error (StageError.unrecognized "backstage:log") := rfl
    rw [h1, h2] at h
    exact Except.noConfusion h⟩

/-- C4 (amended): for every input string, `Stage.from_any` follows the spec's
normalization algorithm amended at its stripping step: trim and lower-case;
if the result begins with `stage:` use it as-is; otherwise remove every
occurrence of the substrings `stage:` and `stage/` (anywhere in the string,
left to right, non-overlapping — not only as a leading prefix), replace
underscores and spaces with hyphens, and re-prefix with `stage:`; the call
succeeds exactly when the resulting key is byte-for-byte one of the seven
canonical keys, and is rejected otherwise. -/
theorem stage_fromAny_follows_amended_spec (s : String) :
    Stage.fromAny s = Stage.fromAnyAmended s := by
  simp only [Stage.fromAny, Stage.fromAnyAmended, slug, replaceChar_replaceChar]

/-- C10: the slug helper removes the substrings `stage:` and `stage/`
anywhere in the input, not only as a leading namespace prefix: the input
`"backstage:log"` begins with neither variant, yet `Stage.from_any` succeeds
on it and returns the Stage with key `stage:backlog`. -/
theorem slug_removes_internal_occurrences :
    strStartsWith "stage:" (strLower (strTrim "backstage:log")) = false ∧
    strStartsWith "stage/" (strLower (strTrim "backstage:log")) = false ∧
    slug "backstage:log" = "backlog" ∧
    Stage.fromAny "backstage:log" = Except.ok ⟨"stage:backlog"⟩ :=
  ⟨rfl, rfl, rfl, rfl⟩

/-! ## WorkItem, events and snapshots (`models.py`, `events.py`) -/

/-- Embeds the `WorkItem` dataclass: canonical, platform-agnostic work item.
Timestamps are abstracted to naturals; the opaque `raw` payload is an
uninterpreted key/value list. -/
structure WorkItem where
  id : String
  title : String
  stage : Stage
  url : Option String := none
  labels : List String := []
  updatedAt : Option Nat := none
  raw : List (String × String) := []
deriving DecidableEq, Repr

/-- Embeds the four event dataclasses of `events.py` as a closed sum. -/
inductive Event where
  | workItemCreated (workItem : WorkItem)
  | workItemDeleted (workItemId : String)
  | stageChanged (workItemId : String) (old new : Stage)
  | workItemUpdated (workItemId : String)
deriving DecidableEq, Repr

/-- The work-item id an event is about (`work_item.id` for a created event,
the carried `work_item_id` otherwise). -/
def eventId : Event → String
  | .workItemCreated w => w.id
  | .workItemDeleted i => i
  | .stageChanged i _ _ => i
  | .workItemUpdated i => i

/-- First-match association-list lookup: embeds Python `dict` access, the
list standing for the mapping. -/
def lookupKey {κ α : Type} [DecidableEq κ] : List (κ × α) → κ → Option α
  | [], _ => none
  | (k', v) :: rest, k => if k' = k then some v else lookupKey rest k

/-- A snapshot: mapping of work-item id to `WorkItem`, represented as an
association list (Python `Mapping[str, WorkItem]`). -/
abbrev Snap := List (String × WorkItem)

/-- A snapshot representation is id-coherent when every stored `WorkItem`
carries the id it is keyed under (the data-model reading of "mapping from
work-item id to WorkItem"). -/
def idCoherent (s : Snap) : Prop := ∀ p ∈ s, (Prod.snd p).id = Prod.fst p

instance instDecidableIdCoherent (s : Snap) : Decidable (idCoherent s) :=
  decidable_of_iff (∀ p ∈ s, (Prod.snd p).id = Prod.fst p) Iff.rfl

/-- Ascending lexicographic sort of ids: embeds Python `sorted` on a set of
strings (the argument lists below are duplicate-free). -/
def sortStr (l : List String) : List String := List.insertionSort (· ≤ ·) l

/-! ## Snapshot diff engine (`diff.py`) -/

/-- Embeds the body of the `for wid in sorted(prev_ids & curr_ids)` loop of
`diff_work_items`: one `StageChanged` when the stages differ (suppressing any
further comparison), else one `WorkItemUpdated` when title or labels differ,
else nothing. -/
def commonEvent (previous current : Snap) (i : String) : Option Event :=
  (lookupKey previous i).bind fun p =>
    (lookupKey current i).bind fun c =>
      if p.stage ≠ c.stage then some (Event.stageChanged i p.stage c.stage)
      else if p.title ≠ c.title ∨ p.labels ≠ c.labels then
        some (Event.workItemUpdated i)
      else none

/-- Embeds `diff_work_items` from `diff.py`: deletions (ids in `previous`
only, sorted), then creations (ids in `current` only, sorted, carrying the
current item), then the per-id comparison over the common ids, sorted. -/
def diff_work_items (previous current : Snap) : List Event :=
  let deletedIds := sortStr (((previous.map Prod.fst).filter
      (fun i => (lookupKey current i).isNone)).dedup)
  let createdIds := sortStr (((current.map Prod.fst).filter
      (fun i => (lookupKey previous i).isNone)).dedup)
  let commonIds := sortStr (((previous.map Prod.fst).filter
      (fun i => (lookupKey current i).isSome)).dedup)
  deletedIds.map Event.workItemDeleted
    ++ createdIds.filterMap
        (fun i => (lookupKey current i).map Event.workItemCreated)
    ++ commonIds.filterMap (commonEvent previous current)

/-! ### Lookup and sorting lemmas -/

theorem lookupKey_isSome_iff {κ α : Type} [DecidableEq κ]
    (s : List (κ × α)) (k : κ) :
    (lookupKey s k).isSome = true ↔ k ∈ s.map Prod.fst := by
  induction s with
  | nil => simp [lookupKey]
  | cons p rest ih =>
    obtain ⟨k', v⟩ := p
    by_cases h : k' = k
    · subst h
      simp [lookupKey]
    · simp [lookupKey, h, ih, Ne.symm h]

theorem lookupKey_eq_none_iff {κ α : Type} [DecidableEq κ]
    (s : List (κ × α)) (k : κ) :
    lookupKey s k = none ↔ k ∉ s.map Prod.fst := by
  rw [← lookupKey_isSome_iff]
  cases lookupKey s k <;> simp

theorem lookupKey_some_mem {κ α : Type} [DecidableEq κ]
    {s : List (κ × α)} {k : κ} {v : α} (h : lookupKey s k = some v) :
    (k, v) ∈ s := by
  induction s with
  | nil => simp [lookupKey] at h
  | cons p rest ih =>
    obtain ⟨k', v'⟩ := p
    by_cases hk : k' = k
    · subst hk
      simp [lookupKey] at h
      subst h
      exact List.mem_cons_self _ _
    · simp [lookupKey, hk] at h
      exact List.mem_cons_of_mem _ (ih h)

theorem sortStr_perm (l : List String) : List.Perm (sortStr l) l :=
  List.perm_insertionSort _ l

theorem mem_sortStr {l : List String} {i : String} :
    i ∈ sortStr l ↔ i ∈ l :=
  (sortStr_perm l).mem_iff

theorem sortStr_sorted_le (l : List String) :
    List.Sorted (· ≤ ·) (sortStr l) :=
  List.sorted_insertionSort _ l

theorem sortStr_nodup {l : List String} (h : l.Nodup) :
    (sortStr l).Nodup :=
  (sortStr_perm l).nodup_iff.mpr h

theorem sortStr_sorted_lt {l : List String} (h : l.Nodup) :
    List.Sorted (· < ·) (sortStr l) :=
  List.Sorted.lt_of_le (sortStr_sorted_le l) (sortStr_nodup h)

theorem mem_sortStr_dedup_filter (s : Snap) (p : String → Bool) (i : String) :
    i ∈ sortStr (((s.map Prod.fst).filter p).dedup)
      ↔ ((lookupKey s i).isSome = true ∧ p i = true) := by
  rw [mem_sortStr, List.mem_dedup, List.mem_filter, lookupKey_isSome_iff]

theorem commonEvent_eventId {previous current : Snap} {j : String} {e : Event}
    (h : commonEvent previous current j = some e) : eventId e = j := by
  unfold commonEvent at h
  rcases hp : lookupKey previous j with _ | p <;> rw [hp] at h
  · exact Option.noConfusion h
  rcases hc : lookupKey current j with _ | c <;> rw [hc] at h
  · exact Option.noConfusion h
  rw [Option.some_bind, Option.some_bind] at h
  split_ifs at h with h1 h2
  · cases h; rfl
  · cases h; rfl

theorem commonEvent_congr {p₁ p₂ c₁ c₂ : Snap} (j : String)
    (hp : lookupKey p₁ j = lookupKey p₂ j)
    (hc : lookupKey c₁ j = lookupKey c₂ j) :
    commonEvent p₁ c₁ j = commonEvent p₂ c₂ j := by
  unfold commonEvent
  rw [hp, hc]

/-- Filtering the events produced over a duplicate-free id list for one id
`i` of the list keeps exactly the event (if any) produced at `i`, provided
every produced event carries the id it was produced at. -/
theorem filterMap_filter_eventId (f : String → Option Event)
    (hf : ∀ j e, f j = some e → eventId e = j) :
    ∀ l : List String, l.Nodup → ∀ i ∈ l,
      (l.filterMap f).filter (fun e => decide (eventId e = i)) = (f i).toList := by
  intro l
  induction l with
  | nil => intro _ i hi; cases hi
  | cons j t ih =>
    intro hn i hi
    have hjt : j ∉ t := (List.nodup_cons.mp hn).1
    have hnt : t.Nodup := (List.nodup_cons.mp hn).2
    rcases List.mem_cons.mp hi with rfl | hit
    · have htail :
          (t.filterMap f).filter (fun e => decide (eventId e = i)) = [] := by
        rw [List.filter_eq_nil_iff]
        intro e he
        rcases List.mem_filterMap.mp he with ⟨j', hj', hfj'⟩
        have hej : eventId e = j' := hf j' e hfj'
        simp only [decide_eq_true_eq]
        intro hei
        exact hjt (by rw [← hej, hei] at hj'; exact hj')
      cases hfj : f i with
      | none => simp [List.filterMap_cons, hfj, htail]
      | some e =>
        have he : eventId e = i := hf i e hfj
        simp [List.filterMap_cons, hfj, List.filter_cons, he, htail]
    · have hji : j ≠ i := fun h => hjt (h ▸ hit)
      cases hfj : f j with
      | none =>
        simp only [List.filterMap_cons, hfj]
        exact ih hnt i hit
      | some e =>
        have he : eventId e = j := hf j e hfj
        simp only [List.filterMap_cons, hfj, List.filter_cons, he,
          decide_eq_true_eq]
        rw [if_neg hji]
        exact ih hnt i hit

/-! ## Diff claims -/

/-- C1: for every pair of snapshots, `diff_work_items` emits events in
exactly three phases: first one `WorkItemDeleted` per id present in
`previous` but absent in `current`, in ascending lexicographic order of id;
then one `WorkItemCreated` (carrying the full current `WorkItem`) per id
present in `current` but absent in `previous`, in ascending lexicographic
order of id; then the events for the ids present in both, visited in
ascending lexicographic order of id. -/
theorem diff_work_items_three_phases (previous current : Snap) :
    ∃ ds cs bs : List String,
      diff_work_items previous current
        = ds.map Event.workItemDeleted
          ++ cs.filterMap
              (fun i => (lookupKey current i).map Event.workItemCreated)
          ++ bs.filterMap (commonEvent previous current) ∧
      List.Sorted (· < ·) ds ∧
      (∀ i, i ∈ ds ↔
        ((lookupKey previous i).isSome = true ∧ lookupKey current i = none)) ∧
      List.Sorted (· < ·) cs ∧
      (∀ i, i ∈ cs ↔
        ((lookupKey current i).isSome = true ∧ lookupKey previous i = none)) ∧
      (∀ i ∈ cs, ∃ w, lookupKey current i = some w) ∧
      List.Sorted (· < ·) bs ∧
      (∀ i, i ∈ bs ↔
        ((lookupKey previous i).isSome = true ∧
          (lookupKey current i).isSome = true)) := by
  refine ⟨sortStr (((previous.map Prod.fst).filter
        (fun i => (lookupKey current i).isNone)).dedup),
      sortStr (((current.map Prod.fst).filter
        (fun i => (lookupKey previous i).isNone)).dedup),
      sortStr (((previous.map Prod.fst).filter
        (fun i => (lookupKey current i).isSome)).dedup),
      rfl,
      sortStr_sorted_lt (List.nodup_dedup _), ?_,
      sortStr_sorted_lt (List.nodup_dedup _), ?_, ?_,
      sortStr_sorted_lt (List.nodup_dedup _), ?_⟩
  · intro i
    rw [mem_sortStr_dedup_filter]
    simp [Option.isNone_iff_eq_none]
  · intro i
    rw [mem_sortStr_dedup_filter]
    simp [Option.isNone_iff_eq_none]
  · intro i hi
    rw [mem_sortStr_dedup_filter] at hi
    exact Option.isSome_iff_exists.mp hi.1
  · intro i
    rw [mem_sortStr_dedup_filter]

/-- The whole-output filter for an id present in both snapshots collapses to
the event the common-id loop produces for that id: the deletion and creation
phases contribute nothing for it. -/
theorem diff_filter_common (previous current : Snap)
    (hcoh : idCoherent current) (i : String) (p c : WorkItem)
    (hp : lookupKey previous i = some p)
    (hc : lookupKey current i = some c) :
    (diff_work_items previous current).filter
        (fun e => decide (eventId e = i))
      = (commonEvent previous current i).toList := by
  unfold diff_work_items
  rw [List.filter_append, List.filter_append]
  have hdel :
      (((sortStr (((previous.map Prod.fst).filter
          (fun i => (lookupKey current i).isNone)).dedup)).map
            Event.workItemDeleted).filter
          (fun e => decide (eventId e = i))) = [] := by
    rw [List.filter_eq_nil_iff]
    intro e he
    rcases List.mem_map.mp he with ⟨j, hj, rfl⟩
    rw [mem_sortStr_dedup_filter] at hj
    simp only [decide_eq_true_eq]
    intro hei
    have hnone : lookupKey current j = none :=
      Option.isNone_iff_eq_none.mp hj.2
    rw [show eventId (Event.workItemDeleted j) = j from rfl] at hei
    rw [hei, hc] at hnone
    exact Option.noConfusion hnone
  have hcre :
      (((sortStr (((current.map Prod.fst).filter
          (fun i => (lookupKey previous i).isNone)).dedup)).filterMap
            (fun i => (lookupKey current i).map Event.workItemCreated)).filter
          (fun e => decide (eventId e = i))) = [] := by
    rw [List.filter_eq_nil_iff]
    intro e he
    rcases List.mem_filterMap.mp he with ⟨j, hj, hfj⟩
    rw [mem_sortStr_dedup_filter] at hj
    rcases Option.map_eq_some'.mp hfj with ⟨w, hw, rfl⟩
    simp only [decide_eq_true_eq]
    intro hei
    have hwid : w.id = j := hcoh (j, w) (lookupKey_some_mem hw)
    rw [show eventId (Event.workItemCreated w) = w.id from rfl, hwid] at hei
    have : lookupKey previous j = none := Option.isNone_iff_eq_none.mp hj.2
    rw [hei, hp] at this
    exact Option.noConfusion this
  have hcom :
      ((sortStr (((previous.map Prod.fst).filter
          (fun i => (lookupKey current i).isSome)).dedup)).filterMap
            (commonEvent previous current)).filter
          (fun e => decide (eventId e = i))
        = (commonEvent previous current i).toList := by
    refine filterMap_filter_eventId (commonEvent previous current)
      (fun j e h => commonEvent_eventId h) _
      (sortStr_nodup (List.nodup_dedup _)) i ?_
    rw [mem_sortStr_dedup_filter]
    constructor
    · rw [hp]; rfl
    · rw [hc]; rfl
  rw [hdel, hcre, hcom]
  simp

/-- C2: for every id present in both snapshots, `diff_work_items` emits for
that id exactly one `StageChanged(old, new)` and no other event when the
stages differ (even if title or labels also changed — the stage change
suppresses the `WorkItemUpdated`); otherwise exactly one `WorkItemUpdated`
when the title or the labels differ; otherwise no event at all for that id. -/
theorem diff_work_items_common_id (previous current : Snap)
    (hcoh : idCoherent current) (i : String) (p c : WorkItem)
    (hp : lookupKey previous i = some p)
    (hc : lookupKey current i = some c) :
    (diff_work_items previous current).filter
        (fun e => decide (eventId e = i))
      = if p.stage ≠ c.stage then [Event.stageChanged i p.stage c.stage]
        else if p.title ≠ c.title ∨ p.labels ≠ c.labels then
          [Event.workItemUpdated i]
        else [] := by
  rw [diff_filter_common previous current hcoh i p c hp hc]
  unfold commonEvent
  rw [hp, hc]
  by_cases h1 : p.stage = c.stage
  · by_cases h2 : p.title ≠ c.title ∨ p.labels ≠ c.labels
    · simp [h1, h2]
    · simp [h1, h2]
  · simp [h1]

/-- C8: `diff_work_items` is a total, deterministic function of the two
snapshot mappings: any two representations denoting the same mappings of id
to `WorkItem` (whatever the iteration/insertion order of the underlying
association lists) produce the identical ordered event list. -/
theorem diff_work_items_extensional (p₁ p₂ c₁ c₂ : Snap)
    (hp : ∀ k, lookupKey p₁ k = lookupKey p₂ k)
    (hc : ∀ k, lookupKey c₁ k = lookupKey c₂ k) :
    diff_work_items p₁ c₁ = diff_work_items p₂ c₂ := by
  have hds :
      sortStr (((p₁.map Prod.fst).filter
          (fun i => (lookupKey c₁ i).isNone)).dedup)
        = sortStr (((p₂.map Prod.fst).filter
          (fun i => (lookupKey c₂ i).isNone)).dedup) := by
    refine List.eq_of_perm_of_sorted
      ((List.perm_ext_iff_of_nodup (sortStr_nodup (List.nodup_dedup _))
        (sortStr_nodup (List.nodup_dedup _))).mpr ?_)
      (sortStr_sorted_le _) (sortStr_sorted_le _)
    intro i
    rw [mem_sortStr_dedup_filter, mem_sortStr_dedup_filter, hp i, hc i]
  have hcs :
      sortStr (((c₁.map Prod.fst).filter
          (fun i => (lookupKey p₁ i).isNone)).dedup)
        = sortStr (((c₂.map Prod.fst).filter
          (fun i => (lookupKey p₂ i).isNone)).dedup) := by
    refine List.eq_of_perm_of_sorted
      ((List.perm_ext_iff_of_nodup (sortStr_nodup (List.nodup_dedup _))
        (sortStr_nodup (List.nodup_dedup _))).mpr ?_)
      (sortStr_sorted_le _) (sortStr_sorted_le _)
    intro i
    rw [mem_sortStr_dedup_filter, mem_sortStr_dedup_filter, hp i, hc i]
  have hbs :
      sortStr (((p₁.map Prod.fst).filter
          (fun i => (lookupKey c₁ i).isSome)).dedup)
        = sortStr (((p₂.map Prod.fst).filter
          (fun i => (lookupKey c₂ i).isSome)).dedup) := by
    refine List.eq_of_perm_of_sorted
      ((List.perm_ext_iff_of_nodup (sortStr_nodup (List.nodup_dedup _))
        (sortStr_nodup (List.nodup_dedup _))).mpr ?_)
      (sortStr_sorted_le _) (sortStr_sorted_le _)
    intro i
    rw [mem_sortStr_dedup_filter, mem_sortStr_dedup_filter, hp i, hc i]
  have h2 :
      List.filterMap (fun i => (lookupKey c₁ i).map Event.workItemCreated)
        (sortStr (((c₂.map Prod.fst).filter
          (fun i => (lookupKey p₂ i).isNone)).dedup))
      = List.filterMap (fun i => (lookupKey c₂ i).map Event.workItemCreated)
        (sortStr (((c₂.map Prod.fst).filter
          (fun i => (lookupKey p₂ i).isNone)).dedup)) :=
    List.filterMap_congr (fun i _ => by rw [hc i])
  have h3 :
      List.filterMap (commonEvent p₁ c₁)
        (sortStr (((p₂.map Prod.fst).filter
          (fun i => (lookupKey c₂ i).isSome)).dedup))
      = List.filterMap (commonEvent p₂ c₂)
        (sortStr (((p₂.map Prod.fst).filter
          (fun i => (lookupKey c₂ i).isSome)).dedup)) :=
    List.filterMap_congr (fun j _ => commonEvent_congr j (hp j) (hc j))
  show
    (sortStr (((p₁.map Prod.fst).filter
        (fun i => (lookupKey c₁ i).isNone)).dedup)).map Event.workItemDeleted
      ++ (sortStr (((c₁.map Prod.fst).filter
          (fun i => (lookupKey p₁ i).isNone)).dedup)).filterMap
          (fun i => (lookupKey c₁ i).map Event.workItemCreated)
      ++ (sortStr (((p₁.map Prod.fst).filter
          (fun i => (lookupKey c₁ i).isSome)).dedup)).filterMap
          (commonEvent p₁ c₁)
    = (sortStr (((p₂.map Prod.fst).filter
        (fun i => (lookupKey c₂ i).isNone)).dedup)).map Event.workItemDeleted
      ++ (sortStr (((c₂.map Prod.fst).filter
          (fun i => (lookupKey p₂ i).isNone)).dedup)).filterMap
          (fun i => (lookupKey c₂ i).map Event.workItemCreated)
      ++ (sortStr (((p₂.map Prod.fst).filter
          (fun i => (lookupKey c₂ i).isSome)).dedup)).filterMap
          (commonEvent p₂ c₂)
  rw [hds, hcs, hbs, h2, h3]

/-! ## Incremental poll/reconcile engine (`github_adapter.py`) -/

/-- Embeds the `GitHubIssue` dataclass (timestamps abstracted to naturals). -/
structure GitHubIssue where
  number : Nat
  title : String
  url : String
  state : String
  updatedAt : Nat
  labels : List String
deriving DecidableEq, Repr

/-- The per-item record `poll_events_since` persists for an issue:
`{updatedAt, labels, title, url, state}` (the ISO round trip of the
timestamp is abstracted away). -/
structure ItemRecord where
  updatedAt : Nat
  labels : List String
  title : String
  url : String
  state : String
deriving DecidableEq, Repr

/-- The reserved `_meta` record: `{repo, lastPolledAt}`. -/
structure MetaRecord where
  repo : String
  lastPolledAt : Nat
deriving DecidableEq, Repr

/-- The persisted poll snapshot: the id-keyed item records plus the reserved
`_meta` record (modelled as a separate field; issue keys are decimal strings
and never collide with `_meta`). -/
structure PollState where
  items : List (String × ItemRecord)
  meta : Option MetaRecord
deriving DecidableEq, Repr

/-- Embeds `GitHubIssueEvent`: `kind` is the constructor, `details` the
kind-specific payload (`title`/`labels` for created, `added`/`removed` for
labels_changed, empty for updated). -/
inductive PollEvent where
  | created (issueNumber : Nat) (updatedAt : Nat) (title : String)
      (labels : List String)
  | labelsChanged (issueNumber : Nat) (updatedAt : Nat)
      (added removed : List String)
  | updated (issueNumber : Nat) (updatedAt : Nat)
deriving DecidableEq, Repr

/-- The issue number a synthesized poll event is about. -/
def eventNumber : PollEvent → Nat
  | .created n _ _ _ => n
  | .labelsChanged n _ _ _ => n
  | .updated n _ => n

/-- Python `set(a) == set(b)`: equality of the label lists as unordered
sets. -/
def labelSetEqB (a b : List String) : Bool :=
  a.all (fun x => decide (x ∈ b)) && b.all (fun x => decide (x ∈ a))

/-- Python `sorted(list(set(a) - set(b)))`: the distinct labels of `a` not
in `b`, in ascending lexicographic order. -/
def setDiffSorted (a b : List String) : List String :=
  sortStr (a.dedup.filter (fun x => decide (x ∉ b)))

/-- Python `str(issue.number)`: the snapshot key of a fetched issue. -/
def pollKey (issue : GitHubIssue) : String := Nat.repr issue.number

/-- The freshly fetched record written for an issue, whatever branch was
taken. -/
def recordOf (issue : GitHubIssue) : ItemRecord :=
  ⟨issue.updatedAt, issue.labels, issue.title, issue.url, issue.state⟩

/-- Python `dict` assignment `snapshot[k] = v`: replace in place when the
key exists, append otherwise. -/
def upsert {κ α : Type} [DecidableEq κ] : List (κ × α) → κ → α → List (κ × α)
  | [], k, v => [(k, v)]
  | (k', v') :: rest, k, v =>
    if k' = k then (k, v) :: rest else (k', v') :: upsert rest k v

/-- Embeds the event-synthesis branch of the `for issue in updated` loop of
`poll_events_since`: `created` when the id has no persisted entry; else
`labels_changed` when the fetched and persisted label sets differ (with
ascending-sorted `added`/`removed`); else `updated` when the fetched update
time is strictly newer; else nothing. -/
def issueEvent (items : List (String × ItemRecord)) (issue : GitHubIssue) :
    Option PollEvent :=
  (lookupKey items (pollKey issue)).elim
    (some (.created issue.number issue.updatedAt issue.title issue.labels))
    (fun prev =>
      if !(labelSetEqB issue.labels prev.labels) then
        some (.labelsChanged issue.number issue.updatedAt
          (setDiffSorted issue.labels prev.labels)
          (setDiffSorted prev.labels issue.labels))
      else if prev.updatedAt < issue.updatedAt then
        some (.updated issue.number issue.updatedAt)
      else none)

/-- One iteration of the `for issue in updated` loop: skip items failing the
`since` re-filter; otherwise append the synthesized event (if any) and
unconditionally upsert the fetched record. -/
def pollStep (since : Nat)
    (st : List PollEvent × List (String × ItemRecord))
    (issue : GitHubIssue) :
    List PollEvent × List (String × ItemRecord) :=
  if issue.updatedAt < since then st
  else
    (st.1 ++ (issueEvent st.2 issue).toList,
     upsert st.2 (pollKey issue) (recordOf issue))

/-- Embeds `poll_events_since` after the fetch: process the fetched issues
in order starting from the loaded snapshot, then write the `_meta` record
with the repo identifier and the current wall-clock time. -/
def pollEventsSince (state0 : PollState) (fetched : List GitHubIssue)
    (since now : Nat) (repo : String) : List PollEvent × PollState :=
  let r := fetched.foldl (pollStep since) ([], state0.items)
  (r.1, { items := r.2, meta := some ⟨repo, now⟩ })

/-- The event an issue contributes, as a function of the loaded snapshot:
`none` when the re-filter skips it, otherwise `issueEvent`. -/
def eventOf (items : List (String × ItemRecord)) (since : Nat)
    (issue : GitHubIssue) : Option PollEvent :=
  if issue.updatedAt < since then none else issueEvent items issue

/-! ### Poll failure model (`poll_events_since` end to end) -/

/-- Error taxonomy of §7 as visible to one poll call. -/
inductive PollError where
  | snapshotCorrupt
  | ghCliError
deriving DecidableEq, Repr

/-- The persisted snapshot file contents: absent (first run), unparseable,
or a previously saved snapshot. -/
inductive StoredFile where
  | absent
  | corrupt
  | saved (state : PollState)
deriving DecidableEq, Repr

/-- Embeds `_load_snapshot`: an absent file is an empty snapshot; an
unparseable file raises. -/
def loadSnapshot : StoredFile → Except PollError PollState
  | .absent => .ok ⟨[], none⟩
  | .corrupt => .error .snapshotCorrupt
  | .saved st => .ok st

/-- Embeds one `poll_events_since` call, sequencing its effects: load the
snapshot (may raise), fetch (may raise), reconcile, then persist the fully
rewritten snapshot in one final save.  Returns the call result and the file
contents after the call. -/
def pollCall (stored : StoredFile)
    (fetched : Except PollError (List GitHubIssue))
    (since now : Nat) (repo : String) :
    Except PollError (List PollEvent) × StoredFile :=
  match loadSnapshot stored with
  | .error e => (.error e, stored)
  | .ok st =>
    match fetched with
    | .error e => (.error e, stored)
    | .ok issues =>
      (.ok (pollEventsSince st issues since now repo).1,
       .saved (pollEventsSince st issues since now repo).2)

/-! ### Poll engine lemmas -/

theorem upsert_lookup_self {κ α : Type} [DecidableEq κ]
    (m : List (κ × α)) (k : κ) (v : α) :
    lookupKey (upsert m k v) k = some v := by
  induction m with
  | nil => simp [upsert, lookupKey]
  | cons p rest ih =>
    obtain ⟨k', v'⟩ := p
    by_cases h : k' = k <;> simp [upsert, lookupKey, h, ih]

theorem upsert_lookup_other {κ α : Type} [DecidableEq κ]
    (m : List (κ × α)) (k k' : κ) (v : α) (h : k ≠ k') :
    lookupKey (upsert m k v) k' = lookupKey m k' := by
  induction m with
  | nil => simp [upsert, lookupKey, h]
  | cons p rest ih =>
    obtain ⟨k₀, v₀⟩ := p
    by_cases h0 : k₀ = k
    · subst h0
      simp [upsert, lookupKey, h]
    · simp [upsert, lookupKey, h0, ih]

theorem eventOf_congr {items₁ items₂ : List (String × ItemRecord)}
    {since : Nat} (issue : GitHubIssue)
    (h : lookupKey items₁ (pollKey issue) = lookupKey items₂ (pollKey issue)) :
    eventOf items₁ since issue = eventOf items₂ since issue := by
  unfold eventOf issueEvent
  rw [h]

theorem foldl_pollStep_acc (since : Nat) :
    ∀ (l : List GitHubIssue) (evs : List PollEvent)
      (items : List (String × ItemRecord)),
      l.foldl (pollStep since) (evs, items)
        = (evs ++ (l.foldl (pollStep since) ([], items)).1,
           (l.foldl (pollStep since) ([], items)).2) := by
  intro l
  induction l with
  | nil => intro evs items; simp
  | cons issue t ih =>
    intro evs items
    rw [List.foldl_cons, List.foldl_cons]
    by_cases h : issue.updatedAt < since
    · rw [show pollStep since (evs, items) issue = (evs, items) from by
        simp [pollStep, h]]
      rw [show pollStep since ([], items) issue = ([], items) from by
        simp [pollStep, h]]
      exact ih evs items
    · rw [show pollStep since (evs, items) issue
          = (evs ++ (issueEvent items issue).toList,
             upsert items (pollKey issue) (recordOf issue)) from by
        simp [pollStep, h]]
      rw [show pollStep since ([], items) issue
          = ((issueEvent items issue).toList,
             upsert items (pollKey issue) (recordOf issue)) from by
        simp [pollStep, h]]
      rw [ih (evs ++ (issueEvent items issue).toList)
        (upsert items (pollKey issue) (recordOf issue)),
        ih ((issueEvent items issue).toList)
        (upsert items (pollKey issue) (recordOf issue))]
      simp [List.append_assoc]

theorem foldl_pollStep_frame (since : Nat) :
    ∀ (l : List GitHubIssue) (evs : List PollEvent)
      (items : List (String × ItemRecord)) (k : String),
      (∀ issue ∈ l, ¬ issue.updatedAt < since → pollKey issue ≠ k) →
      lookupKey ((l.foldl (pollStep since) (evs, items)).2) k
        = lookupKey items k := by
  intro l
  induction l with
  | nil => intro evs items k _; rfl
  | cons issue t ih =>
    intro evs items k h
    rw [List.foldl_cons]
    by_cases hts : issue.updatedAt < since
    · rw [show pollStep since (evs, items) issue = (evs, items) from by
        simp [pollStep, hts]]
      exact ih evs items k (fun i hi => h i (List.mem_cons_of_mem _ hi))
    · rw [show pollStep since (evs, items) issue
          = (evs ++ (issueEvent items issue).toList,
             upsert items (pollKey issue) (recordOf issue)) from by
        simp [pollStep, hts]]
      rw [ih _ _ k (fun i hi => h i (List.mem_cons_of_mem _ hi))]
      exact upsert_lookup_other items (pollKey issue) k (recordOf issue)
        (h issue (List.mem_cons_self _ _) hts)

theorem foldl_pollStep_upsert (since : Nat) :
    ∀ (l : List GitHubIssue) (evs : List PollEvent)
      (items : List (String × ItemRecord)),
      (l.map pollKey).Nodup →
      ∀ issue ∈ l, since ≤ issue.updatedAt →
      lookupKey ((l.foldl (pollStep since) (evs, items)).2) (pollKey issue)
        = some (recordOf issue) := by
  intro l
  induction l with
  | nil => intro evs items _ issue hi; cases hi
  | cons j t ih =>
    intro evs items hn issue hi hts
    have hn' : pollKey j ∉ t.map pollKey ∧ (t.map pollKey).Nodup := by
      simpa [List.nodup_cons] using hn
    rw [List.foldl_cons]
    rcases List.mem_cons.mp hi with rfl | hit
    · rw [show pollStep since (evs, items) issue
          = (evs ++ (issueEvent items issue).toList,
             upsert items (pollKey issue) (recordOf issue)) from by
        simp [pollStep, Nat.not_lt.mpr hts]]
      rw [foldl_pollStep_frame since t _ _ _
        (fun i hi2 _ he => hn'.1 (by
          rw [← he]
          exact List.mem_map_of_mem pollKey hi2))]
      exact upsert_lookup_self items (pollKey issue) (recordOf issue)
    · by_cases hts2 : j.updatedAt < since
      · rw [show pollStep since (evs, items) j = (evs, items) from by
          simp [pollStep, hts2]]
        exact ih evs items hn'.2 issue hit hts
      · rw [show pollStep since (evs, items) j
            = (evs ++ (issueEvent items j).toList,
               upsert items (pollKey j) (recordOf j)) from by
          simp [pollStep, hts2]]
        exact ih _ _ hn'.2 issue hit hts

theorem foldl_pollStep_events (since : Nat) :
    ∀ (l : List GitHubIssue) (items : List (String × ItemRecord)),
      (l.map pollKey).Nodup →
      (l.foldl (pollStep since) ([], items)).1
        = l.filterMap (eventOf items since) := by
  intro l
  induction l with
  | nil => intro items _; rfl
  | cons j t ih =>
    intro items hn
    have hn' : pollKey j ∉ t.map pollKey ∧ (t.map pollKey).Nodup := by
      simpa [List.nodup_cons] using hn
    have hsplit : List.filterMap (eventOf items since) (j :: t)
        = (eventOf items since j).toList
          ++ List.filterMap (eventOf items since) t := by
      cases h : eventOf items since j <;> simp [List.filterMap_cons, h]
    rw [List.foldl_cons, hsplit]
    by_cases hts : j.updatedAt < since
    · rw [show pollStep since ([], items) j = ([], items) from by
        simp [pollStep, hts]]
      rw [ih items hn'.2]
      simp [eventOf, hts]
    · rw [show pollStep since ([], items) j
          = ((issueEvent items j).toList,
             upsert items (pollKey j) (recordOf j)) from by
        simp [pollStep, hts]]
      rw [foldl_pollStep_acc since t ((issueEvent items j).toList)
        (upsert items (pollKey j) (recordOf j))]
      rw [show ((issueEvent items j).toList
            ++ (t.foldl (pollStep since)
              ([], upsert items (pollKey j) (recordOf j))).1,
            (t.foldl (pollStep since)
              ([], upsert items (pollKey j) (recordOf j))).2).1
          = (issueEvent items j).toList
            ++ (t.foldl (pollStep since)
              ([], upsert items (pollKey j) (recordOf j))).1 from rfl]
      rw [ih (upsert items (pollKey j) (recordOf j)) hn'.2]
      have hcongr : List.filterMap
            (eventOf (upsert items (pollKey j) (recordOf j)) since) t
          = List.filterMap (eventOf items since) t :=
        List.filterMap_congr (fun i hi =>
          eventOf_congr i (upsert_lookup_other items (pollKey j) (pollKey i)
            (recordOf j)
            (fun he => hn'.1 (he ▸ List.mem_map_of_mem pollKey hi))))
      rw [hcongr]
      have hhead : eventOf items since j = issueEvent items j := by
        simp [eventOf, hts]
      rw [hhead]

/-- The events of one poll call are, item by item in fetch order, the events
each fetched issue induces against the loaded snapshot (requires the fetched
snapshot keys to be duplicate-free, as one GitHub listing reports each issue
once). -/
theorem pollEventsSince_events (state0 : PollState)
    (fetched : List GitHubIssue) (since now : Nat) (repo : String)
    (hn : (fetched.map pollKey).Nodup) :
    (pollEventsSince state0 fetched since now repo).1
      = fetched.filterMap (eventOf state0.items since) :=
  foldl_pollStep_events since fetched state0.items hn

theorem labelSetEqB_iff (a b : List String) :
    labelSetEqB a b = true ↔ ∀ x, x ∈ a ↔ x ∈ b := by
  unfold labelSetEqB
  rw [Bool.and_eq_true, List.all_eq_true, List.all_eq_true]
  constructor
  · rintro ⟨h1, h2⟩ x
    constructor
    · intro hx
      simpa using h1 x hx
    · intro hx
      simpa using h2 x hx
  · intro h
    constructor
    · intro x hx
      simpa using (h x).mp hx
    · intro x hx
      simpa using (h x).mpr hx

theorem setDiffSorted_sorted (a b : List String) :
    List.Sorted (· < ·) (setDiffSorted a b) :=
  sortStr_sorted_lt ((List.nodup_dedup a).filter _)

theorem mem_setDiffSorted (a b : List String) (x : String) :
    x ∈ setDiffSorted a b ↔ (x ∈ a ∧ x ∉ b) := by
  unfold setDiffSorted
  rw [mem_sortStr, List.mem_filter, List.mem_dedup]
  simp

theorem eventOf_number {items : List (String × ItemRecord)} {since : Nat}
    {issue : GitHubIssue} {e : PollEvent}
    (h : eventOf items since issue = some e) :
    eventNumber e = issue.number := by
  unfold eventOf issueEvent at h
  by_cases hts : issue.updatedAt < since
  · rw [if_pos hts] at h
    exact Option.noConfusion h
  rw [if_neg hts] at h
  rcases hl : lookupKey items (pollKey issue) with _ | prev <;> rw [hl] at h
  · simp only [Option.elim_none] at h
    cases h
    rfl
  · simp only [Option.elim_some] at h
    split_ifs at h with h1 h2
    · cases h
      rfl
    · cases h
      rfl

theorem filterMap_filter_number (f : GitHubIssue → Option PollEvent)
    (hf : ∀ i e, f i = some e → eventNumber e = i.number) :
    ∀ l : List GitHubIssue, (l.map (fun i => i.number)).Nodup →
      ∀ issue ∈ l,
      (l.filterMap f).filter (fun e => decide (eventNumber e = issue.number))
        = (f issue).toList := by
  intro l
  induction l with
  | nil => intro _ issue hi; cases hi
  | cons j t ih =>
    intro hn issue hi
    have hn' : j.number ∉ t.map (fun i => i.number)
        ∧ (t.map (fun i => i.number)).Nodup := by
      simpa [List.nodup_cons] using hn
    rcases List.mem_cons.mp hi with rfl | hit
    · have htail : (t.filterMap f).filter
          (fun e => decide (eventNumber e = issue.number)) = [] := by
        rw [List.filter_eq_nil_iff]
        intro e he
        rcases List.mem_filterMap.mp he with ⟨i, hi', hfi⟩
        simp only [decide_eq_true_eq]
        intro hei
        refine hn'.1 ?_
        rw [← hei, hf i e hfi]
        exact List.mem_map_of_mem _ hi'
      cases hfj : f issue with
      | none => simp [List.filterMap_cons, hfj, htail]
      | some e =>
        have he : eventNumber e = issue.number := hf issue e hfj
        simp [List.filterMap_cons, hfj, List.filter_cons, he, htail]
    · have hji : j.number ≠ issue.number := by
        intro h
        refine hn'.1 ?_
        rw [h]
        exact List.mem_map_of_mem _ hit
      cases hfj : f j with
      | none =>
        simp only [List.filterMap_cons, hfj]
        exact ih hn'.2 issue hit
      | some e =>
        have he : eventNumber e = j.number := hf j e hfj
        simp only [List.filterMap_cons, hfj, List.filter_cons, he,
          decide_eq_true_eq]
        rw [if_neg hji]
        exact ih hn'.2 issue hit

theorem filterMap_number_count_le_one (f : GitHubIssue → Option PollEvent)
    (hf : ∀ i e, f i = some e → eventNumber e = i.number) :
    ∀ l : List GitHubIssue, (l.map (fun i => i.number)).Nodup → ∀ n : Nat,
      ((l.filterMap f).filter
        (fun e => decide (eventNumber e = n))).length ≤ 1 := by
  intro l
  induction l with
  | nil => intro _ n; simp
  | cons j t ih =>
    intro hn n
    have hn' : j.number ∉ t.map (fun i => i.number)
        ∧ (t.map (fun i => i.number)).Nodup := by
      simpa [List.nodup_cons] using hn
    have hsplit : List.filterMap f (j :: t)
        = (f j).toList ++ List.filterMap f t := by
      cases h : f j <;> simp [List.filterMap_cons, h]
    rw [hsplit, List.filter_append, List.length_append]
    by_cases hjn : j.number = n
    · have htail : (t.filterMap f).filter
          (fun e => decide (eventNumber e = n)) = [] := by
        rw [List.filter_eq_nil_iff]
        intro e he
        rcases List.mem_filterMap.mp he with ⟨i, hi', hfi⟩
        simp only [decide_eq_true_eq]
        intro hei
        refine hn'.1 ?_
        rw [hjn, ← hei, hf i e hfi]
        exact List.mem_map_of_mem _ hi'
      rw [htail]
      simp only [List.length_nil, Nat.add_zero]
      calc ((f j).toList.filter (fun e => decide (eventNumber e = n))).length
          ≤ (f j).toList.length := List.length_filter_le _ _
        _ ≤ 1 := by cases f j <;> simp
    · have hhead : (f j).toList.filter
          (fun e => decide (eventNumber e = n)) = [] := by
        rw [List.filter_eq_nil_iff]
        intro e he
        cases hfj : f j with
        | none =>
          rw [hfj] at he
          cases he
        | some e' =>
          rw [hfj] at he
          simp only [Option.toList_some, List.mem_singleton] at he
          subst he
          simp only [decide_eq_true_eq]
          intro hei
          refine hjn ?_
          rw [← hf j e hfj, hei]
      rw [hhead]
      simp only [List.length_nil, Nat.zero_add]
      exact ih hn'.2 n

/-- Issue numbers are duplicate-free whenever the snapshot keys are (the
keys are the printed numbers). -/
theorem numbers_nodup_of_keys_nodup {fetched : List GitHubIssue}
    (hn : (fetched.map pollKey).Nodup) :
    (fetched.map (fun i => i.number)).Nodup := by
  have : fetched.map pollKey
      = (fetched.map (fun i => i.number)).map Nat.repr := by
    rw [List.map_map]
    rfl
  rw [this] at hn
  exact hn.of_map

/-! ## Poll claims -/

/-- C3: for every fetched item passing the `since` re-filter whose id already
has a persisted entry, when the fetched and persisted label sets differ as
unordered sets, exactly one `labels_changed` event is synthesized for that
issue number, its `added` field the ascending-sorted fetched-minus-persisted
labels and its `removed` field the ascending-sorted persisted-minus-fetched
labels, regardless of any timestamp comparison; and every issue number gets
at most one synthesized event per poll cycle. -/
theorem poll_labels_changed_event (state0 : PollState)
    (fetched : List GitHubIssue) (since now : Nat) (repo : String)
    (hn : (fetched.map pollKey).Nodup)
    (issue : GitHubIssue) (hmem : issue ∈ fetched)
    (hts : since ≤ issue.updatedAt)
    (prev : ItemRecord)
    (hprev : lookupKey state0.items (pollKey issue) = some prev)
    (hdiff : ¬ ∀ x : String, x ∈ issue.labels ↔ x ∈ prev.labels) :
    ((pollEventsSince state0 fetched since now repo).1.filter
        (fun e => decide (eventNumber e = issue.number)))
      = [PollEvent.labelsChanged issue.number issue.updatedAt
          (setDiffSorted issue.labels prev.labels)
          (setDiffSorted prev.labels issue.labels)] ∧
    List.Sorted (· < ·) (setDiffSorted issue.labels prev.labels) ∧
    (∀ x, x ∈ setDiffSorted issue.labels prev.labels ↔
      (x ∈ issue.labels ∧ x ∉ prev.labels)) ∧
    List.Sorted (· < ·) (setDiffSorted prev.labels issue.labels) ∧
    (∀ x, x ∈ setDiffSorted prev.labels issue.labels ↔
      (x ∈ prev.labels ∧ x ∉ issue.labels)) ∧
    (∀ n : Nat, ((pollEventsSince state0 fetched since now repo).1.filter
        (fun e => decide (eventNumber e = n))).length ≤ 1) := by
  have hnum := numbers_nodup_of_keys_nodup hn
  have hev := pollEventsSince_events state0 fetched since now repo hn
  have hfn : ∀ i e, eventOf state0.items since i = some e →
      eventNumber e = i.number := fun i e h => eventOf_number h
  have hfalse : labelSetEqB issue.labels prev.labels = false := by
    cases hb : labelSetEqB issue.labels prev.labels
    · rfl
    · exact absurd ((labelSetEqB_iff _ _).mp hb) hdiff
  refine ⟨?_, setDiffSorted_sorted _ _, mem_setDiffSorted _ _,
    setDiffSorted_sorted _ _, mem_setDiffSorted _ _, ?_⟩
  · rw [hev, filterMap_filter_number _ hfn fetched hnum issue hmem]
    unfold eventOf issueEvent
    rw [if_neg (Nat.not_lt.mpr hts), hprev]
    simp [hfalse]
  · intro n
    rw [hev]
    exact filterMap_number_count_le_one _ hfn fetched hnum n

/-- C5: after a successful poll, the persisted record of every fetched item
passing the `since` re-filter is overwritten with the freshly fetched
`{updated_at, labels, title, url, state}` whether or not an event was
synthesized for it, and every snapshot entry whose key no such item bears
(the `_meta` record aside, which is modelled separately) is left unchanged. -/
theorem poll_snapshot_upsert_frame (state0 : PollState)
    (fetched : List GitHubIssue) (since now : Nat) (repo : String)
    (hn : (fetched.map pollKey).Nodup) :
    (∀ issue ∈ fetched, since ≤ issue.updatedAt →
      lookupKey (pollEventsSince state0 fetched since now repo).2.items
          (pollKey issue)
        = some (recordOf issue)) ∧
    (∀ k : String,
      (∀ issue ∈ fetched, since ≤ issue.updatedAt → pollKey issue ≠ k) →
      lookupKey (pollEventsSince state0 fetched since now repo).2.items k
        = lookupKey state0.items k) := by
  constructor
  · intro issue hi hts
    exact foldl_pollStep_upsert since fetched [] state0.items hn issue hi hts
  · intro k hk
    exact foldl_pollStep_frame since fetched [] state0.items k
      (fun i hi hlt => hk i hi (Nat.not_lt.mp hlt))

/-- C6: one poll call performs no partial commits: the call fails exactly
when the snapshot load or the fetch fails, a failing call leaves the
previously persisted file contents unchanged (it raises before any write),
and a successful call returns the synthesized events and rewrites the
persisted snapshot in one final save. -/
theorem poll_call_no_partial_commit (stored : StoredFile)
    (fetched : Except PollError (List GitHubIssue))
    (since now : Nat) (repo : String) :
    ((∃ e, (pollCall stored fetched since now repo).1 = Except.error e)
      ↔ ((∃ e, loadSnapshot stored = Except.error e)
          ∨ (∃ e, fetched = Except.error e))) ∧
    (∀ e, (pollCall stored fetched since now repo).1 = Except.error e →
      (pollCall stored fetched since now repo).2 = stored) ∧
    (∀ st issues, loadSnapshot stored = Except.ok st →
      fetched = Except.ok issues →
      pollCall stored fetched since now repo
        = (Except.ok (pollEventsSince st issues since now repo).1,
           StoredFile.saved (pollEventsSince st issues since now repo).2)) := by
  refine ⟨?_, ?_, ?_⟩
  · rcases hload : loadSnapshot stored with e | st
    · simp [pollCall, hload]
    · rcases hfetch : fetched with e | issues
      · simp [pollCall, hload, hfetch]
      · simp [pollCall, hload, hfetch]
  · intro e he
    rcases hload : loadSnapshot stored with e' | st
    · simp [pollCall, hload]
    · rcases hfetch : fetched with e' | issues
      · simp [pollCall, hload, hfetch]
      · simp [pollCall, hload, hfetch] at he
  · intro st issues h1 h2
    simp [pollCall, h1, h2]

/-- C9: in `diff_work_items`, labels are compared as ordered sequences, not
as sets: for an id present in both snapshots with equal stage and equal
title, two label sequences holding the same labels in a different order
still produce exactly one `WorkItemUpdated` for that id — unlike the
poll/reconcile engine, whose unordered set comparison synthesizes no
`labels_changed` for equal label sets. -/
theorem diff_labels_order_sensitive (previous current : Snap)
    (hcoh : idCoherent current) (i : String) (p c : WorkItem)
    (hp : lookupKey previous i = some p)
    (hc : lookupKey current i = some c)
    (hstage : p.stage = c.stage) (_htitle : p.title = c.title)
    (hlabels : p.labels ≠ c.labels)
    (hsame : ∀ x, x ∈ p.labels ↔ x ∈ c.labels) :
    (diff_work_items previous current).filter
        (fun e => decide (eventId e = i)) = [Event.workItemUpdated i] ∧
    labelSetEqB c.labels p.labels = true ∧
    (∀ (items : List (String × ItemRecord)) (issue : GitHubIssue)
      (prev : ItemRecord) (since : Nat),
      lookupKey items (pollKey issue) = some prev →
      issue.labels = c.labels → prev.labels = p.labels →
      ∀ n t a r, eventOf items since issue
        ≠ some (PollEvent.labelsChanged n t a r)) := by
  have hset : labelSetEqB c.labels p.labels = true :=
    (labelSetEqB_iff _ _).mpr (fun x => (hsame x).symm)
  refine ⟨?_, hset, ?_⟩
  · rw [diff_filter_common previous current hcoh i p c hp hc]
    unfold commonEvent
    rw [hp, hc, Option.some_bind, Option.some_bind]
    rw [if_neg (not_not_intro hstage), if_pos (Or.inr hlabels)]
    rfl
  · intro items issue prev since hlk hil hpl n t a r heq
    unfold eventOf issueEvent at heq
    by_cases hts : issue.updatedAt < since
    · rw [if_pos hts] at heq
      exact Option.noConfusion heq
    · rw [if_neg hts, hlk, Option.elim_some, hil, hpl, hset] at heq
      simp at heq

/-! ## Witnesses: the claim theorems instantiated at concrete inputs -/

theorem diff_work_items_common_id_witness :
    (diff_work_items
        [("a", ⟨"a", "t", ⟨"stage:backlog"⟩, none, [], none, []⟩)]
        [("a", ⟨"a", "t", ⟨"stage:queued"⟩, none, [], none, []⟩)]).filter
      (fun e => decide (eventId e = "a"))
      = [Event.stageChanged "a" ⟨"stage:backlog"⟩ ⟨"stage:queued"⟩] := by
  have h := diff_work_items_common_id
    [("a", ⟨"a", "t", ⟨"stage:backlog"⟩, none, [], none, []⟩)]
    [("a", ⟨"a", "t", ⟨"stage:queued"⟩, none, [], none, []⟩)]
    (by decide) "a"
    ⟨"a", "t", ⟨"stage:backlog"⟩, none, [], none, []⟩
    ⟨"a", "t", ⟨"stage:queued"⟩, none, [], none, []⟩
    rfl rfl
  exact h.trans (by decide)

theorem poll_labels_changed_event_witness :
    ((pollEventsSince
        ⟨[("1", ⟨0, ["bug", "stage:queued"], "t", "u", "open"⟩)], none⟩
        [⟨1, "t", "u", "open", 5, ["bug", "stage:in-progress"]⟩]
        1 9 "r").1.filter
      (fun e => decide (eventNumber e = 1)))
      = [PollEvent.labelsChanged 1 5 ["stage:in-progress"] ["stage:queued"]] := by
  have h := poll_labels_changed_event
    ⟨[("1", ⟨0, ["bug", "stage:queued"], "t", "u", "open"⟩)], none⟩
    [⟨1, "t", "u", "open", 5, ["bug", "stage:in-progress"]⟩]
    1 9 "r" (by decide)
    ⟨1, "t", "u", "open", 5, ["bug", "stage:in-progress"]⟩
    (by decide) (by decide)
    ⟨0, ["bug", "stage:queued"], "t", "u", "open"⟩
    (by decide)
    (by
      intro hall
      have hx := (hall "stage:in-progress").mp (by decide)
      exact absurd hx (by decide))
  exact h.1.trans (by decide)

theorem poll_snapshot_upsert_frame_witness :
    lookupKey (pollEventsSince
        ⟨[("1", ⟨0, ["bug", "stage:queued"], "t", "u", "open"⟩)], none⟩
        [⟨1, "t", "u", "open", 5, ["bug", "stage:in-progress"]⟩]
        1 9 "r").2.items "1"
      = some ⟨5, ["bug", "stage:in-progress"], "t", "u", "open"⟩ ∧
    lookupKey (pollEventsSince
        ⟨[("1", ⟨0, ["bug", "stage:queued"], "t", "u", "open"⟩)], none⟩
        [⟨1, "t", "u", "open", 5, ["bug", "stage:in-progress"]⟩]
        1 9 "r").2.items "7"
      = none := by
  have h := poll_snapshot_upsert_frame
    ⟨[("1", ⟨0, ["bug", "stage:queued"], "t", "u", "open"⟩)], none⟩
    [⟨1, "t", "u", "open", 5, ["bug", "stage:in-progress"]⟩]
    1 9 "r" (by decide)
  constructor
  · have h1 := h.1 ⟨1, "t", "u", "open", 5, ["bug", "stage:in-progress"]⟩
      (by decide) (by decide)
    exact h1
  · have h2 := h.2 "7" (by decide)
    exact h2.trans (by decide)

theorem poll_call_no_partial_commit_witness :
    (pollCall StoredFile.corrupt (Except.ok []) 0 0 "r").2
      = StoredFile.corrupt := by
  have h := poll_call_no_partial_commit StoredFile.corrupt (Except.ok []) 0 0 "r"
  exact h.2.1 PollError.snapshotCorrupt rfl

theorem diff_work_items_extensional_witness :
    diff_work_items
        [("a", ⟨"a", "t", ⟨"stage:backlog"⟩, none, [], none, []⟩),
         ("b", ⟨"b", "u", ⟨"stage:queued"⟩, none, [], none, []⟩)]
        []
      = diff_work_items
        [("b", ⟨"b", "u", ⟨"stage:queued"⟩, none, [], none, []⟩),
         ("a", ⟨"a", "t", ⟨"stage:backlog"⟩, none, [], none, []⟩)]
        [] := by
  have h := diff_work_items_extensional
    [("a", ⟨"a", "t", ⟨"stage:backlog"⟩, none, [], none, []⟩),
     ("b", ⟨"b", "u", ⟨"stage:queued"⟩, none, [], none, []⟩)]
    [("b", ⟨"b", "u", ⟨"stage:queued"⟩, none, [], none, []⟩),
     ("a", ⟨"a", "t", ⟨"stage:backlog"⟩, none, [], none, []⟩)]
    [] []
    (by
      intro k
      by_cases h1 : "a" = k <;> by_cases h2 : "b" = k <;>
        simp [lookupKey, h1, h2]
      exact absurd (h1.trans h2.symm) (by decide))
    (fun k => rfl)
  exact h

theorem diff_labels_order_sensitive_witness :
    (diff_work_items
        [("a", ⟨"a", "t", ⟨"stage:backlog"⟩, none, ["x", "y"], none, []⟩)]
        [("a", ⟨"a", "t", ⟨"stage:backlog"⟩, none, ["y", "x"], none, []⟩)]).filter
      (fun e => decide (eventId e = "a"))
      = [Event.workItemUpdated "a"] := by
  have h := diff_labels_order_sensitive
    [("a", ⟨"a", "t", ⟨"stage:backlog"⟩, none, ["x", "y"], none, []⟩)]
    [("a", ⟨"a", "t", ⟨"stage:backlog"⟩, none, ["y", "x"], none, []⟩)]
    (by decide) "a"
    ⟨"a", "t", ⟨"stage:backlog"⟩, none, ["x", "y"], none, []⟩
    ⟨"a", "t", ⟨"stage:backlog"⟩, none, ["y", "x"], none, []⟩
    rfl rfl rfl rfl (by decide)
    (by intro x; simp [List.mem_cons, or_comm])
  exact h.1

end Clawban
